import Mathlib

/-!
Verification development for `lab04-advance-rag-agent/strands_agent_tools.py`.

The Python module is embedded shallowly:

* Python strings are `List Char`; `str.replace(pat, "")`, `str.strip()`,
  `str.index`/`in`, slicing, `startswith`/`endswith` are modelled by
  executable Lean functions below with Python's semantics.
* `zlib.compress` is an external library routine; it is modelled as an
  abstract parameter `compress : List Nat → List Nat` (a byte sequence in,
  a byte sequence out).  No claim depends on the concrete compressed bits.
* Network, model-invocation and storage calls are external effects; each is
  modelled as an oracle value/function recorded in an `Effects` structure,
  and the wrapping/`try`/`except` logic of the Python code is reproduced
  faithfully on top of them.
* `json.dumps` is modelled by `dumps` on a small JSON value type, with
  Python's default separators and `ensure_ascii` escaping.
-/

/-- Whitespace test used by Python's `str.strip()` (`str.isspace`), modelled
for the ASCII range: space, tab, newline, carriage return, vertical tab and
form feed. -/
def pySpace (c : Char) : Bool :=
  c = ' ' || c = '\t' || c = '\n' || c = '\r' || c = '\x0b' || c = '\x0c'

/-- Python `str.lstrip()`: drop leading whitespace. -/
def lstripChars (s : List Char) : List Char := s.dropWhile pySpace

/-- Python `str.rstrip()`: drop trailing whitespace. -/
def rstripChars (s : List Char) : List Char := (s.reverse.dropWhile pySpace).reverse

/-- Python `str.strip()`: drop whitespace at both ends. -/
def stripChars (s : List Char) : List Char := rstripChars (lstripChars s)

/-- Fuel-driven worker for `pyReplace`.  One unit of fuel is spent per step;
`fuel = s.length` is always enough because every step consumes at least one
character of `s`. -/
def replFuel (pat : List Char) : Nat → List Char → List Char
  | _, [] => []
  | 0, s => s
  | fuel + 1, c :: rest =>
    if pat.isPrefixOf (c :: rest) ∧ pat ≠ [] then
      replFuel pat fuel ((c :: rest).drop pat.length)
    else
      c :: replFuel pat fuel rest

/-- Python `s.replace(pat, "")` (as used in `encode_plantuml`): delete the
left-to-right non-overlapping occurrences of `pat` in `s`. -/
def pyReplace (pat s : List Char) : List Char := replFuel pat s.length s

/-- Python `s.find(pat)`: index of the first occurrence of `pat` in `s`,
`none` when there is no occurrence (`s.index` raises `ValueError` then;
`pat in s` tests the same condition). -/
def strFind (pat : List Char) : List Char → Option Nat
  | [] => if pat.isPrefixOf ([] : List Char) then some 0 else none
  | c :: rest =>
    if pat.isPrefixOf (c :: rest) then some 0
    else (strFind pat rest).map (· + 1)

/-- Python `s.index(pat, start)` (as an `Option`): first occurrence of `pat`
at a position `≥ start`. -/
def strFindFrom (pat s : List Char) (start : Nat) : Option Nat :=
  (strFind pat (s.drop start)).map (· + start)

/-- Python `pat in s`. -/
def containsSub (pat s : List Char) : Bool := (strFind pat s).isSome

/-- Python slice `s[a:b]` (for the in-range uses of this module). -/
def pySlice (s : List Char) (a b : Nat) : List Char := (s.take b).drop a

/-- UTF-8 encoding of one Unicode scalar value (Python `str.encode('utf-8')`,
per character). -/
def utf8Char (c : Char) : List Nat :=
  let v := c.toNat
  if v < 0x80 then [v]
  else if v < 0x800 then [0xC0 + v / 64, 0x80 + v % 64]
  else if v < 0x10000 then [0xE0 + v / 4096, 0x80 + v / 64 % 64, 0x80 + v % 64]
  else [0xF0 + v / 262144, 0x80 + v / 4096 % 64, 0x80 + v / 64 % 64, 0x80 + v % 64]

/-- Python `text.encode('utf-8')`. -/
def utf8Bytes (s : List Char) : List Nat := s.flatMap utf8Char

/-- The literal `"@startuml"`. -/
def suMark : List Char := "@startuml".toList

/-- The literal `"@enduml"`. -/
def euMark : List Char := "@enduml".toList

/-- The literal `"```plantuml"` (fenced code-block opener). -/
def fenceTag : List Char := "```plantuml".toList

/-- The literal `"```"` (generic fence). -/
def fence : List Char := "```".toList

/-- `base64_chars` of `encode_plantuml`: PlantUML's 64-symbol alphabet. -/
def base64_chars : List Char :=
  "0123456789ABCDEFGHIJKLMNOPQRSTUVWXYZabcdefghijklmnopqrstuvwxyz-_".toList

/-- `base64_chars[n]`.  Python would raise `IndexError` for `n ≥ 64`; the
model returns `' '` (a character not in the alphabet) there, so an
out-of-range access can never be mistaken for a valid symbol. -/
def alpha (n : Nat) : Char := base64_chars.getD n ' '

/-- The packing loop of `encode_plantuml`: bytes are taken three at a time,
`b` is the chunk zero-padded to length 3, and
`b1 = b[0] >> 2`, `b2 = ((b[0] & 0x3) << 4) | (b[1] >> 4)`,
`b3 = ((b[1] & 0xF) << 2) | (b[2] >> 6)`, `b4 = b[2] & 0x3F`;
`b3` is emitted only for chunks of length `> 1` and `b4` only for chunks of
length `> 2`. -/
def pack64 : List Nat → List Char
  | [] => []
  | [b0] =>
    [alpha (b0 >>> 2), alpha (((b0 &&& 0x3) <<< 4) ||| (0 >>> 4))]
  | [b0, b1] =>
    [alpha (b0 >>> 2), alpha (((b0 &&& 0x3) <<< 4) ||| (b1 >>> 4)),
     alpha (((b1 &&& 0xF) <<< 2) ||| (0 >>> 6))]
  | b0 :: b1 :: b2 :: rest =>
    alpha (b0 >>> 2) :: alpha (((b0 &&& 0x3) <<< 4) ||| (b1 >>> 4)) ::
    alpha (((b1 &&& 0xF) <<< 2) ||| (b2 >>> 6)) :: alpha (b2 &&& 0x3F) ::
    pack64 rest

/-- First step of `encode_plantuml`:
`plantuml_text.replace("@startuml", "").replace("@enduml", "").strip()`. -/
def normalizeSource (s : List Char) : List Char :=
  stripChars (pyReplace euMark (pyReplace suMark s))

/-- Second step of `encode_plantuml`:
`f"@startuml\n{plantuml_text}\n@enduml"`. -/
def wrapSource (s : List Char) : List Char :=
  suMark ++ '\n' :: normalizeSource s ++ '\n' :: euMark

/-- Python `zlib.compress(...)[2:-4]`: drop the 2-byte zlib header and the
4-byte Adler-32 trailer. -/
def deflateSlice (l : List Nat) : List Nat := (l.drop 2).take (l.length - 6)

/-- `encode_plantuml` of the source, with `zlib.compress` abstracted as
`compress`. -/
def encode_plantuml (compress : List Nat → List Nat) (s : List Char) : List Char :=
  pack64 (deflateSlice (compress (utf8Bytes (wrapSource s))))

/-- The fixed PlantUML server base URL of the module. -/
def PLANTUML_SERVER : List Char := "http://www.plantuml.com/plantuml".toList

/-- The failure message of `extract_plantuml_code`: the inner
`ValueError("No valid PlantUML code markers found")` is caught by the
function's own `except` clause and re-raised as
`ValueError(f"Could not extract PlantUML code: {str(e)}")`. -/
def extractFailMsg : List Char :=
  "Could not extract PlantUML code: No valid PlantUML code markers found".toList

/-- The tail of the extractor's inner loop: try each end marker in order with
`response_text.index(end_marker, start_idx)`; the first marker found wins
(`ValueError` from `index` means "try the next one"). -/
def tryEndMarkers (text : List Char) (startIdx : Nat) : List (List Char) → Option Nat
  | [] => none
  | m :: ms =>
    match strFindFrom m text startIdx with
    | some e => some e
    | none => tryEndMarkers text startIdx ms

/-- First post-processing step of an extracted block: prepend
`"@startuml\n"` unless the code already starts with `"@startuml"`. -/
def prependMark (code : List Char) : List Char :=
  if suMark.isPrefixOf code then code else suMark ++ '\n' :: code

/-- Second post-processing step: append `"\n@enduml"` unless the code
already ends with `"@enduml"`. -/
def appendMark (c1 : List Char) : List Char :=
  if euMark.isSuffixOf c1 then c1 else c1 ++ '\n' :: euMark

/-- The post-processing of an extracted block: both steps in order. -/
def postProcessCode (code : List Char) : List Char :=
  appendMark (prependMark code)

/-- The outer loop of `extract_plantuml_code` over
`start_markers = ["```plantuml", "@startuml"]` (paired with how far the
found index is advanced: past the fence opener, not past the bare marker).
`if start_marker in response_text: start_idx = response_text.index(...)` is
a single `strFind`.  When no end marker is found after the chosen start
marker the inner loop is exhausted and the next start marker is tried. -/
def extractLoop (text : List Char) : List (List Char × Nat) → Option (List Char)
  | [] => none
  | (marker, skip) :: rest =>
    match strFind marker text with
    | none => extractLoop text rest
    | some i =>
      let startIdx := i + skip
      match tryEndMarkers text startIdx [fence, euMark] with
      | none => extractLoop text rest
      | some endIdx => some (postProcessCode (stripChars (pySlice text startIdx endIdx)))

/-- `extract_plantuml_code` of the source.  A raised `ValueError` is an
`Except.error` carrying `str(e)`. -/
def extract_plantuml_code (text : List Char) : Except (List Char) (List Char) :=
  match extractLoop text [(fenceTag, fenceTag.length), (suMark, 0)] with
  | some code => Except.ok code
  | none => Except.error extractFailMsg

/-- JSON values, as far as this module produces them.  Numbers are modelled
as integers: the only numbers the module itself writes are the retrieval
result count and the default score `0`. -/
inductive Json where
  | null : Json
  | str : List Char → Json
  | num : Int → Json
  | arr : List Json → Json
  | obj : List (List Char × Json) → Json
deriving BEq

/-- Lowercase hexadecimal digit, for `\uXXXX` escapes. -/
def hexDigit (n : Nat) : Char := ("0123456789abcdef".toList).getD n '0'

/-- Four-digit hexadecimal rendering of `n < 0x10000`. -/
def hex4 (n : Nat) : List Char :=
  [hexDigit (n / 4096 % 16), hexDigit (n / 256 % 16), hexDigit (n / 16 % 16),
   hexDigit (n % 16)]

/-- `json.dumps` escaping of one character (default `ensure_ascii=True`):
the two-character escapes, `\u00xx` for other control characters, non-ASCII
as `\uXXXX` (a surrogate pair beyond the BMP). -/
def jsonEscapeChar (c : Char) : List Char :=
  if c = '"' then ['\\', '"']
  else if c = '\\' then ['\\', '\\']
  else if c = '\x08' then ['\\', 'b']
  else if c = '\x0c' then ['\\', 'f']
  else if c = '\n' then ['\\', 'n']
  else if c = '\r' then ['\\', 'r']
  else if c = '\t' then ['\\', 't']
  else if c.toNat < 0x20 then '\\' :: 'u' :: hex4 c.toNat
  else if c.toNat < 0x7f then [c]
  else if c.toNat < 0x10000 then '\\' :: 'u' :: hex4 c.toNat
  else
    '\\' :: 'u' :: hex4 (0xD800 + (c.toNat - 0x10000) / 1024) ++
      ('\\' :: 'u' :: hex4 (0xDC00 + (c.toNat - 0x10000) % 1024))

/-- Decimal digits of a natural number. -/
def natChars (n : Nat) : List Char := Nat.toDigits 10 n

/-- Decimal rendering of an integer. -/
def intChars : Int → List Char
  | Int.ofNat n => natChars n
  | Int.negSucc n => '-' :: natChars (n + 1)

mutual

/-- `json.dumps` with Python's default separators `', '` and `': '`. -/
def dumps : Json → List Char
  | Json.null => "null".toList
  | Json.str s => '"' :: s.flatMap jsonEscapeChar ++ ['"']
  | Json.num n => intChars n
  | Json.arr xs => '[' :: dumpsArr xs ++ [']']
  | Json.obj fs => '{' :: dumpsObj fs ++ ['}']

/-- `json.dumps` of the elements of an array, comma-separated. -/
def dumpsArr : List Json → List Char
  | [] => []
  | [x] => dumps x
  | x :: y :: rest => dumps x ++ ',' :: ' ' :: dumpsArr (y :: rest)

/-- `json.dumps` of the entries of an object, comma-separated. -/
def dumpsObj : List (List Char × Json) → List Char
  | [] => []
  | [(k, v)] => '"' :: k.flatMap jsonEscapeChar ++ '"' :: ':' :: ' ' :: dumps v
  | (k, v) :: e :: rest =>
    '"' :: k.flatMap jsonEscapeChar ++ '"' :: ':' :: ' ' :: dumps v ++
      ',' :: ' ' :: dumpsObj (e :: rest)

end

/-- The key names of a JSON object (empty for any other JSON value). -/
def jsonKeys : Json → List (List Char)
  | Json.obj fs => fs.map Prod.fst
  | _ => []

/-- Field lookup in a JSON object. -/
def jsonField (j : Json) (k : List Char) : Option Json :=
  match j with
  | Json.obj fs => (fs.find? (fun kv => kv.fst == k)).map Prod.snd
  | _ => none

/-- The external effects `get_uml_diagram` depends on, each modelled as an
oracle:

* `compress` — `zlib.compress`;
* `invoke` — the Bedrock model invocation together with the parsing of its
  response body, as a function of the YAML body substituted into the prompt
  template: `Except.ok` is `response_body["content"][0]["text"]`,
  `Except.error` is `str(e)` of a raised exception;
* `httpGet` — `http.request('GET', url)` as a function of the URL:
  `Except.ok (status, data)` is a completed response, `Except.error` a
  transport fault;
* `bucket` — `get_default_bucket()` (region/account lookup plus lazy bucket
  creation, all external calls): the bucket name or `str(e)` of the raised
  exception;
* `putObject` — `s3_client.put_object`, as a function of the key;
* `uuid` — the `uuid.uuid4()` drawn for the diagram file name. -/
structure Effects where
  compress : List Nat → List Nat
  invoke : List Char → Except (List Char) (List Char)
  httpGet : List Char → Except (List Char) (Nat × List Nat)
  bucket : Except (List Char) (List Char)
  putObject : List Char → Except (List Char) Unit
  uuid : List Char

/-- `get_diagram_from_server`: encode the code, build
`f"{PLANTUML_SERVER}/{output_format}/{encoded}"`, `GET` it; a non-200 status
raises `Exception(f"Failed to get diagram: HTTP {response.status}")`, and the
function's own `except` clause wraps any fault as
`Exception(f"Error getting diagram from server: {str(e)}")`. -/
def get_diagram_from_server (eff : Effects) (plantumlCode outputFormat : List Char) :
    Except (List Char) (List Nat) :=
  let url := PLANTUML_SERVER ++ '/' :: outputFormat ++ '/' ::
    encode_plantuml eff.compress plantumlCode
  match eff.httpGet url with
  | Except.error e =>
    Except.error (("Error getting diagram from server: ".toList) ++ e)
  | Except.ok (status, data) =>
    if status = 200 then Except.ok data
    else
      Except.error (("Error getting diagram from server: Failed to get diagram: HTTP ".toList)
        ++ natChars status)

/-- `upload_to_s3`: resolve the default bucket, `put_object`, and return
`f"s3://{bucket_name}/{key}"`; any fault is re-raised as
`Exception(f"Error uploading to S3: {str(e)}")`. -/
def upload_to_s3 (eff : Effects) (key : List Char) : Except (List Char) (List Char) :=
  match eff.bucket with
  | Except.error e => Except.error (("Error uploading to S3: ".toList) ++ e)
  | Except.ok bucketName =>
    match eff.putObject key with
    | Except.error e => Except.error (("Error uploading to S3: ".toList) ++ e)
    | Except.ok _ =>
      Except.ok (("s3://".toList) ++ bucketName ++ '/' :: key)

/-- The `try` body of `get_uml_diagram`: invoke the model on the prompt built
from `yml_body`, extract the PlantUML code, fetch the rendered diagram, and
upload it under `f"diagrams/{uuid.uuid4()}.{output_format}"`. -/
def umlPipeline (eff : Effects) (ymlBody outputFormat : List Char) :
    Except (List Char) (List Char × List Char) := do
  let plantumlText ← eff.invoke ymlBody
  let plantumlCode ← extract_plantuml_code plantumlText
  let _diagramData ← get_diagram_from_server eff plantumlCode outputFormat
  let fileName := ("diagrams/".toList) ++ eff.uuid ++ '.' :: outputFormat
  let diagramUri ← upload_to_s3 eff fileName
  pure (plantumlCode, diagramUri)

/-- The JSON object `get_uml_diagram` serializes: the success result
`{"codeBody": ..., "diagramUri": ..., "summary": ...}`, or — for any
exception caught by the tool's `except` clause — the error result
`{"error": str(e), "codeBody": None, "diagramUri": None}`. -/
def get_uml_diagram_obj (eff : Effects) (ymlBody outputFormat : List Char) : Json :=
  match umlPipeline eff ymlBody outputFormat with
  | Except.ok (plantumlCode, diagramUri) =>
    Json.obj [(("codeBody".toList), Json.str plantumlCode),
              (("diagramUri".toList), Json.str diagramUri),
              (("summary".toList),
               Json.str (("UML diagram generated successfully and saved to ".toList)
                 ++ diagramUri))]
  | Except.error e =>
    Json.obj [(("error".toList), Json.str e),
              (("codeBody".toList), Json.null),
              (("diagramUri".toList), Json.null)]

/-- `get_uml_diagram`: `json.dumps` of the result object. -/
def get_uml_diagram (eff : Effects) (ymlBody outputFormat : List Char) : List Char :=
  dumps (get_uml_diagram_obj eff ymlBody outputFormat)

/-- The JSON object `get_unit_test_code` serializes; `invoke` is the model
invocation oracle (a function of the YAML body and the user query
substituted into the code-generation prompt). -/
def get_unit_test_code_obj (invoke : List Char → List Char → Except (List Char) (List Char))
    (ymlBody userQuery : List Char) : Json :=
  match invoke ymlBody userQuery with
  | Except.ok codeBody => Json.obj [(("codeBody".toList), Json.str codeBody)]
  | Except.error e =>
    Json.obj [(("error".toList), Json.str e), (("codeBody".toList), Json.null)]

/-- `get_unit_test_code`: `json.dumps` of the result object. -/
def get_unit_test_code (invoke : List Char → List Char → Except (List Char) (List Char))
    (ymlBody userQuery : List Char) : List Char :=
  dumps (get_unit_test_code_obj invoke ymlBody userQuery)

/-- One raw retrieval result, as `search_knowledge_base` reads it:
`result.get('content', {}).get('text', '')`, `result.get('score', 0)` and
`result.get('metadata', {})`, with `none` standing for an absent key. -/
structure RetrievedItem where
  content : Option (List Char)
  score : Option Json
  metadata : Option Json

/-- The reshaping `search_knowledge_base` applies to one retrieval result. -/
def reshapeItem (it : RetrievedItem) : Json :=
  Json.obj [(("content".toList), Json.str (it.content.getD [])),
            (("score".toList), it.score.getD (Json.num 0)),
            (("metadata".toList), it.metadata.getD (Json.obj []))]

/-- The JSON object `search_knowledge_base` serializes; `retrieve` is the
`bedrock_agent_runtime.retrieve` oracle as a function of the query, the
knowledge-base id and the result limit.  On success the object is
`{"query": ..., "results": [...], "count": len(results)}`; a raised
exception yields `{"error": str(e), "results": []}`. -/
def search_knowledge_base_obj
    (retrieve : List Char → List Char → Nat → Except (List Char) (List RetrievedItem))
    (query kbId : List Char) (maxResults : Nat) : Json :=
  match retrieve query kbId maxResults with
  | Except.ok items =>
    Json.obj [(("query".toList), Json.str query),
              (("results".toList), Json.arr (items.map reshapeItem)),
              (("count".toList), Json.num items.length)]
  | Except.error e =>
    Json.obj [(("error".toList), Json.str e), (("results".toList), Json.arr [])]

/-- `search_knowledge_base`: `json.dumps` of the result object. -/
def search_knowledge_base
    (retrieve : List Char → List Char → Nat → Except (List Char) (List RetrievedItem))
    (query kbId : List Char) (maxResults : Nat) : List Char :=
  dumps (search_knowledge_base_obj retrieve query kbId maxResults)

/-! ### Definitions following the specification's wording

These are *not* read off the source: each is a direct formalisation of a
sentence of the specification, to be compared with the source-derived
definitions above. -/

/-- Spec wording: "dropping the first 2 bytes and the last 4 bytes" of the
compressed stream. -/
def specSlice (l : List Nat) : List Nat :=
  ((((l.drop 2).dropLast).dropLast).dropLast).dropLast

/-- Spec wording: "symbol1 = bits 2-7 of byte0". -/
def packSymbol1 (b0 : Nat) : Nat := b0 / 4

/-- Spec wording: "symbol2 = low 2 bits of byte0 concatenated with high 4
bits of byte1". -/
def packSymbol2 (b0 b1 : Nat) : Nat := b0 % 4 * 16 + b1 / 16

/-- Spec wording: "symbol3 = low 4 bits of byte1 concatenated with high 2
bits of byte2". -/
def packSymbol3 (b1 b2 : Nat) : Nat := b1 % 16 * 4 + b2 / 64

/-- Spec wording: "symbol4 = low 6 bits of byte2". -/
def packSymbol4 (b2 : Nat) : Nat := b2 % 64

/-- Spec wording of the packing: bytes three at a time, a short final group
zero-padded, symbol3 emitted only for a group of at least 2 real bytes and
symbol4 only for a full group of 3. -/
def packSpec : List Nat → List Char
  | [] => []
  | [b0] => [alpha (packSymbol1 b0), alpha (packSymbol2 b0 0)]
  | [b0, b1] =>
    [alpha (packSymbol1 b0), alpha (packSymbol2 b0 b1), alpha (packSymbol3 b1 0)]
  | b0 :: b1 :: b2 :: rest =>
    alpha (packSymbol1 b0) :: alpha (packSymbol2 b0 b1) :: alpha (packSymbol3 b1 b2) ::
    alpha (packSymbol4 b2) :: packSpec rest

/-- The encoder as claim C1 words it: delete the marker literals and trim,
re-wrap, UTF-8 encode, compress, strip the 2-byte header and 4-byte
trailer, then pack with the bit-field symbols above. -/
def encodePlantumlSpec (compress : List Nat → List Nat) (s : List Char) : List Char :=
  let body := stripChars (pyReplace euMark (pyReplace suMark s))
  let text := suMark ++ '\n' :: body ++ '\n' :: euMark
  packSpec (specSlice (compress (utf8Bytes text)))

/-- Claim C2/C5 wording: "the first marker of that list present in the
text", paired with how far to advance past its first occurrence. -/
def selectStartSpec (text : List Char) : Option (List Char × Nat) :=
  if containsSub fenceTag text then some (fenceTag, fenceTag.length)
  else if containsSub suMark text then some (suMark, 0)
  else none

/-- Claim C2 wording: from the advanced start position, try the end markers
in order `["```", "@enduml"]` and use the first one found. -/
def firstEndSpec (text : List Char) (st : Nat) : Option Nat :=
  match strFindFrom fence text st with
  | some e => some e
  | none => strFindFrom euMark text st

/-- One start marker as claim C2 describes it: first occurrence, advanced by
`skip`, first end marker from there, payload trimmed and re-wrapped. -/
def tryStartSpec (text marker : List Char) (skip : Nat) : Option (List Char) :=
  match strFind marker text with
  | none => none
  | some i =>
    match firstEndSpec text (i + skip) with
    | none => none
    | some e => some (postProcessCode (stripChars (pySlice text (i + skip) e)))

/-- The extraction procedure exactly as claim C2 words it: only the first
start marker (in list order) present in the text is used. -/
def extractSpecNoFallback (text : List Char) : Option (List Char) :=
  match selectStartSpec text with
  | none => none
  | some (m, skip) => tryStartSpec text m skip

/-- The extraction procedure as amended: when the selected start marker has
no end marker at or after its advanced position, the next start marker of
the list is tried before giving up. -/
def extractSpecFallback (text : List Char) : Option (List Char) :=
  match tryStartSpec text fenceTag fenceTag.length with
  | some r => some r
  | none => tryStartSpec text suMark 0

/-- Whether `e` is an `Except.error`. -/
def exceptIsError {ε α : Type} : Except ε α → Bool
  | Except.error _ => true
  | Except.ok _ => false

/-- Claim C5's failure condition, as worded: no start marker occurs at all,
or the start marker *selected* (the first of the list present in the text)
has no end marker at or after the advanced start position. -/
def failCondSpec (text : List Char) : Bool :=
  match selectStartSpec text with
  | none => true
  | some (m, skip) =>
    match strFind m text with
    | none => true
    | some i => (firstEndSpec text (i + skip)).isNone

/-- Whether one start marker fails to produce a block: it is absent, or no
end marker occurs at or after its advanced position. -/
def startFailsSpec (text marker : List Char) (skip : Nat) : Bool :=
  match strFind marker text with
  | none => true
  | some i => (firstEndSpec text (i + skip)).isNone

/-- Claim C5's failure condition as amended: *every* start marker of the
list fails (absent, or without a following end marker). -/
def failCondAmended (text : List Char) : Bool :=
  startFailsSpec text fenceTag fenceTag.length && startFailsSpec text suMark 0

/-! ### Helper definitions for the statements -/

/-- No occurrence of `pat` in a concatenation `ys ++ b` reaches into `b`:
any match is already a match of `ys` alone. -/
def NoSpan (pat b : List Char) : Prop :=
  ∀ ys : List Char, pat.isPrefixOf (ys ++ b) → pat.isPrefixOf ys

/-- The error object of `get_uml_diagram`:
`{"error": str(e), "codeBody": None, "diagramUri": None}`. -/
def umlErrorObj (msg : List Char) : Json :=
  Json.obj [(("error".toList), Json.str msg),
            (("codeBody".toList), Json.null),
            (("diagramUri".toList), Json.null)]

/-- The success object of `get_uml_diagram`. -/
def umlOkObj (code uri : List Char) : Json :=
  Json.obj [(("codeBody".toList), Json.str code),
            (("diagramUri".toList), Json.str uri),
            (("summary".toList),
             Json.str (("UML diagram generated successfully and saved to ".toList) ++ uri))]

/-- The output is the serialization of an error object (some message string,
`codeBody` and `diagramUri` both null). -/
def isUmlErrorOutput (out : List Char) : Prop :=
  ∃ msg : List Char, out = dumps (umlErrorObj msg)

/-- Some internal step of `get_uml_diagram` raises: the model invocation,
the extraction, the rendering-server fetch (transport fault or non-200
status), or the storage upload (bucket resolution or `put_object`). -/
def umlFault (eff : Effects) (ymlBody outputFormat : List Char) : Prop :=
  exceptIsError (eff.invoke ymlBody) = true ∨
  (∃ t, eff.invoke ymlBody = Except.ok t ∧
    exceptIsError (extract_plantuml_code t) = true) ∨
  (∃ t code, eff.invoke ymlBody = Except.ok t ∧
    extract_plantuml_code t = Except.ok code ∧
    exceptIsError (get_diagram_from_server eff code outputFormat) = true) ∨
  exceptIsError eff.bucket = true ∨
  exceptIsError (eff.putObject (("diagrams/".toList) ++ eff.uuid ++ '.' :: outputFormat)) = true

/-- The message `get_diagram_from_server` produces for a non-200 status. -/
def serverErrMsg (status : Nat) : List Char :=
  ("Error getting diagram from server: Failed to get diagram: HTTP ".toList)
    ++ natChars status

/-- A model response carrying a fenced PlantUML block (spec scenario 1). -/
def demoText : List Char := "```plantuml\n@startuml\nA->B: hi\n@enduml\n```".toList

/-- The canonical block extracted from `demoText`. -/
def demoCode : List Char := "@startuml\nA->B: hi\n@enduml".toList

/-- A demo stand-in for `zlib.compress`: a fixed byte list. -/
def cfDemo : List Nat → List Nat := fun _ => [1, 2, 3, 4, 5, 6, 7, 8, 9]

/-- Effects with every collaborator healthy (rendering server answers 200). -/
def effDemoOk : Effects where
  compress := cfDemo
  invoke := fun _ => Except.ok demoText
  httpGet := fun _ => Except.ok (200, [137, 80, 78, 71])
  bucket := Except.ok ("sagemaker-us-east-1-123456789012".toList)
  putObject := fun _ => Except.ok ()
  uuid := "42".toList

/-- Effects whose rendering server answers HTTP 404 after a successful model
invocation and extraction. -/
def effDemo404 : Effects where
  compress := cfDemo
  invoke := fun _ => Except.ok demoText
  httpGet := fun _ => Except.ok (404, [])
  bucket := Except.ok ("sagemaker-us-east-1-123456789012".toList)
  putObject := fun _ => Except.ok ()
  uuid := "42".toList

/-- Effects whose model invocation raises. -/
def effDemoFault : Effects where
  compress := cfDemo
  invoke := fun _ => Except.error ("Read timeout on endpoint URL".toList)
  httpGet := fun _ => Except.ok (200, [137, 80, 78, 71])
  bucket := Except.ok ("sagemaker-us-east-1-123456789012".toList)
  putObject := fun _ => Except.ok ()
  uuid := "42".toList

/-- Input showing the start-marker fallback: the fence opener is present but
has no end marker after it, the bare marker is then used (claim C2). -/
def cexC2Text : List Char := "@startuml x\n```plantuml y".toList

/-- Input showing the start-marker fallback against claim C5's
failure condition. -/
def cexC5Text : List Char := "@startuml z\n```plantuml w".toList

/-- The already-wrapped input `"@startuml\n A\n@enduml"` whose body `" A"`
carries leading whitespace (claim C6). -/
def cexC6Text : List Char := "@startuml\n A\n@enduml".toList

/-! ### Machinery: `pyReplace` -/

theorem replFuel_congr (pat : List Char) :
    ∀ (f1 f2 : Nat) (s : List Char), s.length ≤ f1 → s.length ≤ f2 →
      replFuel pat f1 s = replFuel pat f2 s := by
  intro f1
  induction f1 with
  | zero =>
    intro f2 s h1 _
    have hs : s = [] := List.eq_nil_of_length_eq_zero (Nat.le_zero.mp h1)
    subst hs
    cases f2 <;> rfl
  | succ f ih =>
    intro f2 s h1 h2
    cases s with
    | nil => cases f2 <;> rfl
    | cons c rest =>
      cases f2 with
      | zero => simp at h2
      | succ f2' =>
        have hlrest : rest.length ≤ f := by simp at h1; omega
        have hlrest2 : rest.length ≤ f2' := by simp at h2; omega
        by_cases h : pat.isPrefixOf (c :: rest) ∧ pat ≠ []
        · have hpat : 0 < pat.length := List.length_pos.mpr h.2
          simp only [replFuel, if_pos h]
          apply ih
          · simp only [List.length_drop, List.length_cons]; omega
          · simp only [List.length_drop, List.length_cons]; omega
        · simp only [replFuel, if_neg h]
          exact congrArg (c :: ·) (ih f2' rest hlrest hlrest2)

theorem pyReplace_cons (pat : List Char) (c : Char) (s : List Char) :
    pyReplace pat (c :: s) =
      if pat.isPrefixOf (c :: s) ∧ pat ≠ [] then
        pyReplace pat ((c :: s).drop pat.length)
      else c :: pyReplace pat s := by
  show replFuel pat (s.length + 1) (c :: s) = _
  by_cases h : pat.isPrefixOf (c :: s) ∧ pat ≠ []
  · have hpat : 0 < pat.length := List.length_pos.mpr h.2
    simp only [replFuel, if_pos h]
    apply replFuel_congr
    · simp only [List.length_drop, List.length_cons]; omega
    · exact le_rfl
  · simp only [replFuel, if_neg h]
    rfl

theorem pyReplace_eat (pat s : List Char) (hne : pat ≠ []) :
    pyReplace pat (pat ++ s) = pyReplace pat s := by
  cases pat with
  | nil => exact absurd rfl hne
  | cons p ps =>
    have hpre : (p :: ps).isPrefixOf ((p :: ps) ++ s) := by
      rw [ List.isPrefixOf_iff_prefix]
      exact List.prefix_append _ _
    rw [show (p :: ps) ++ s = p :: (ps ++ s) from rfl, pyReplace_cons,
      if_pos ⟨hpre, hne⟩]
    rw [show p :: (ps ++ s) = (p :: ps) ++ s from rfl, List.drop_left]

theorem pyReplace_cons_neg (pat : List Char) (c : Char) (s : List Char)
    (h : ¬ pat.isPrefixOf (c :: s)) :
    pyReplace pat (c :: s) = c :: pyReplace pat s := by
  rw [pyReplace_cons, if_neg (fun hh => h hh.1)]

theorem noSpan_of_check (pat b : List Char)
    (h : ∀ k, k < pat.length → ¬ (pat.drop k).isPrefixOf b) : NoSpan pat b := by
  intro ys hpre
  rw [ List.isPrefixOf_iff_prefix] at hpre ⊢
  have h1 : pat = (ys ++ b).take pat.length := List.prefix_iff_eq_take.mp hpre
  rw [List.take_append_eq_append_take] at h1
  by_cases hlen : pat.length ≤ ys.length
  · rw [Nat.sub_eq_zero_of_le hlen] at h1
    simp only [List.take_zero, List.append_nil] at h1
    rw [h1]
    exact List.take_prefix _ _
  · exfalso
    rw [List.take_of_length_le (by omega)] at h1
    apply h ys.length (by omega)
    rw [ List.isPrefixOf_iff_prefix]
    have h2 : pat.drop ys.length = b.take (pat.length - ys.length) := by
      conv_lhs => rw [h1]
      exact List.drop_left _ _
    rw [h2]
    exact List.take_prefix _ _

theorem pyReplace_append (pat b : List Char) (hne : pat ≠ []) (hns : NoSpan pat b) :
    ∀ xs : List Char, pyReplace pat (xs ++ b) = pyReplace pat xs ++ pyReplace pat b := by
  intro xs
  generalize hn : xs.length = n
  induction n using Nat.strong_induction_on generalizing xs with
  | _ n ih =>
    cases xs with
    | nil => rfl
    | cons c rest =>
      subst hn
      have hpat : 0 < pat.length := List.length_pos.mpr hne
      by_cases hp : pat.isPrefixOf (c :: rest)
      · have hp2 : pat.isPrefixOf (c :: (rest ++ b)) := by
          rw [ List.isPrefixOf_iff_prefix] at hp ⊢
          exact hp.trans (List.prefix_append _ _)
        have hlen : pat.length ≤ rest.length + 1 :=
          List.IsPrefix.length_le ( List.isPrefixOf_iff_prefix.mp hp)
        rw [show (c :: rest) ++ b = c :: (rest ++ b) from rfl, pyReplace_cons,
          if_pos ⟨hp2, hne⟩, pyReplace_cons, if_pos ⟨hp, hne⟩]
        have hd : (c :: (rest ++ b)).drop pat.length = ((c :: rest).drop pat.length) ++ b := by
          rw [show c :: (rest ++ b) = (c :: rest) ++ b from rfl]
          exact List.drop_append_of_le_length (by simpa using hlen)
        rw [hd]
        exact ih ((c :: rest).drop pat.length).length
          (by simp only [List.length_drop, List.length_cons]; omega) _ rfl
      · have hp2 : ¬ pat.isPrefixOf (c :: (rest ++ b)) := by
          intro hcon
          exact hp (hns (c :: rest) hcon)
        rw [show (c :: rest) ++ b = c :: (rest ++ b) from rfl,
          pyReplace_cons_neg _ _ _ hp2, pyReplace_cons_neg _ _ _ hp]
        rw [List.cons_append, ih rest.length (by simp) rest rfl]

/-! ### Machinery: `strFind` -/

theorem strFind_pos (pat s : List Char) (h : pat.isPrefixOf s) :
    strFind pat s = some 0 := by
  cases s with
  | nil => simp only [strFind, if_pos h]
  | cons c rest => simp only [strFind, if_pos h]

theorem strFind_cons_neg (pat : List Char) (c : Char) (rest : List Char)
    (h : ¬ pat.isPrefixOf (c :: rest)) :
    strFind pat (c :: rest) = (strFind pat rest).map (· + 1) := by
  simp only [strFind, if_neg h]

theorem strFind_nil_of_ne (pat : List Char) (hne : pat ≠ []) :
    strFind pat ([] : List Char) = none := by
  cases pat with
  | nil => exact absurd rfl hne
  | cons p ps => rfl

theorem strFind_eq_none_iff (pat s : List Char) :
    strFind pat s = none ↔ ∀ i, ¬ pat.isPrefixOf (s.drop i) := by
  induction s with
  | nil =>
    constructor
    · intro h i hcon
      rw [List.drop_nil] at hcon
      simp only [strFind, if_pos hcon] at h
      exact Option.noConfusion h
    · intro h
      cases hp : pat.isPrefixOf ([] : List Char) with
      | true => exact absurd (by simpa using hp) (h 0)
      | false => simp only [strFind, hp, Bool.false_eq_true, if_neg, reduceIte]
  | cons c rest ih =>
    by_cases hp : pat.isPrefixOf (c :: rest)
    · constructor
      · intro h
        simp only [strFind, if_pos hp] at h
        exact absurd h (by simp)
      · intro h
        exact absurd hp (by simpa using h 0)
    · rw [strFind_cons_neg _ _ _ hp]
      constructor
      · intro h i
        cases i with
        | zero => simpa using hp
        | succ j =>
          have h2 : strFind pat rest = none := by
            cases hr : strFind pat rest with
            | none => rfl
            | some v => rw [hr] at h; simp at h
          exact (ih.mp h2) j
      · intro h
        have h2 : strFind pat rest = none :=
          ih.mpr (fun j => by simpa using h (j + 1))
        rw [h2]
        rfl

theorem strFind_sub_none (pat1 pat2 s : List Char) (h : strFind pat1 s = none)
    (hpre : pat1.isPrefixOf pat2) : strFind pat2 s = none := by
  rw [strFind_eq_none_iff] at h ⊢
  intro i hcon
  apply h i
  rw [ List.isPrefixOf_iff_prefix] at hpre hcon ⊢
  exact hpre.trans hcon

theorem strFind_append_right (pat a b : List Char) (hne : pat ≠ [])
    (hchk : ∀ k, k < pat.length → 0 < k → ¬ (pat.take k).isSuffixOf a) :
    strFind pat (a ++ b) =
      match strFind pat a with
      | some i => some i
      | none => (strFind pat b).map (· + a.length) := by
  induction a with
  | nil =>
    rw [strFind_nil_of_ne pat hne]
    simp only [List.nil_append, List.length_nil]
    cases strFind pat b <;> simp
  | cons c rest ih =>
    by_cases hp : pat.isPrefixOf (c :: rest)
    · have hp2 : pat.isPrefixOf ((c :: rest) ++ b) := by
        rw [ List.isPrefixOf_iff_prefix] at hp ⊢
        exact hp.trans (List.prefix_append _ _)
      rw [strFind_pos pat _ hp2, strFind_pos pat _ hp]
    · have hp2 : ¬ pat.isPrefixOf ((c :: rest) ++ b) := by
        intro hcon
        rw [ List.isPrefixOf_iff_prefix] at hcon
        have h1 : pat = (c :: rest).take pat.length ++ b.take (pat.length - (c :: rest).length) := by
          rw [← List.take_append_eq_append_take]
          exact List.prefix_iff_eq_take.mp hcon
        by_cases hlen : pat.length ≤ (c :: rest).length
        · rw [Nat.sub_eq_zero_of_le hlen] at h1
          simp only [List.take_zero, List.append_nil] at h1
          apply hp
          rw [ List.isPrefixOf_iff_prefix, h1]
          exact List.take_prefix _ _
        · rw [List.take_of_length_le (by omega)] at h1
          apply hchk (c :: rest).length (by omega) (by simp)
          have h2 : pat.take (c :: rest).length = c :: rest := by
            conv_lhs => rw [h1]
            exact List.take_left' rfl
          rw [h2, List.isSuffixOf_iff_suffix]
      rw [show (c :: rest) ++ b = c :: (rest ++ b) from rfl,
        strFind_cons_neg pat c (rest ++ b) hp2, strFind_cons_neg pat c rest hp]
      have hchk2 : ∀ k, k < pat.length → 0 < k → ¬ (pat.take k).isSuffixOf rest := by
        intro k hk1 hk2 hcon
        apply hchk k hk1 hk2
        rw [List.isSuffixOf_iff_suffix] at hcon ⊢
        exact hcon.trans (List.suffix_cons c rest)
      rw [ih hchk2]
      cases hr : strFind pat rest with
      | some v => rfl
      | none =>
        cases hb : strFind pat b with
        | none => simp
        | some v => simp [Nat.add_assoc]

theorem strFind_append_noSpan (pat b : List Char) (hne : pat ≠ []) (hns : NoSpan pat b) :
    ∀ xs : List Char, strFind pat (xs ++ b) =
      match strFind pat xs with
      | some i => some i
      | none => (strFind pat b).map (· + xs.length) := by
  intro xs
  induction xs with
  | nil =>
    rw [strFind_nil_of_ne pat hne]
    simp only [List.nil_append, List.length_nil]
    cases strFind pat b <;> simp
  | cons c rest ih =>
    by_cases hp : pat.isPrefixOf (c :: rest)
    · have hp2 : pat.isPrefixOf ((c :: rest) ++ b) := by
        rw [ List.isPrefixOf_iff_prefix] at hp ⊢
        exact hp.trans (List.prefix_append _ _)
      rw [strFind_pos pat _ hp2, strFind_pos pat _ hp]
    · have hp2 : ¬ pat.isPrefixOf ((c :: rest) ++ b) := fun hcon => hp (hns (c :: rest) hcon)
      rw [show (c :: rest) ++ b = c :: (rest ++ b) from rfl,
        strFind_cons_neg pat c (rest ++ b) hp2, strFind_cons_neg pat c rest hp, ih]
      cases hr : strFind pat rest with
      | some v => rfl
      | none =>
        cases hb : strFind pat b with
        | none => simp
        | some v => simp [Nat.add_assoc]

/-! ### Machinery: stripping -/

theorem lstrip_cons_ws (c : Char) (s : List Char) (h : pySpace c = true) :
    lstripChars (c :: s) = lstripChars s := by
  simp [lstripChars, List.dropWhile_cons, h]

theorem lstrip_cons_not (c : Char) (s : List Char) (h : pySpace c = false) :
    lstripChars (c :: s) = c :: s := by
  simp [lstripChars, List.dropWhile_cons, h]

theorem rstrip_append_ws (c : Char) (s : List Char) (h : pySpace c = true) :
    rstripChars (s ++ [c]) = rstripChars s := by
  simp [rstripChars, List.dropWhile_cons, h]

theorem stripChars_cons_ws (c : Char) (s : List Char) (h : pySpace c = true) :
    stripChars (c :: s) = stripChars s := by
  simp [stripChars, lstrip_cons_ws c s h]

theorem stripChars_append_ws (c : Char) (s : List Char) (h : pySpace c = true) :
    stripChars (s ++ [c]) = stripChars s := by
  unfold stripChars
  unfold lstripChars
  rw [List.dropWhile_append]
  by_cases he : (s.dropWhile pySpace).isEmpty
  · rw [if_pos he]
    rw [List.isEmpty_iff] at he
    rw [he]
    simp [List.dropWhile_cons, h, rstripChars]
  · rw [if_neg he]
    exact rstrip_append_ws c _ h

theorem rstrip_append_of_ne (x y : List Char) (h : rstripChars y ≠ []) :
    rstripChars (x ++ y) = x ++ rstripChars y := by
  have he : ¬ (y.reverse.dropWhile pySpace).isEmpty := by
    rw [List.isEmpty_iff]
    intro hc
    apply h
    simp [rstripChars, hc]
  unfold rstripChars
  rw [List.reverse_append, List.dropWhile_append, if_neg he]
  simp [rstripChars]

theorem rstrip_append_of_nil (x y : List Char) (h : rstripChars y = []) :
    rstripChars (x ++ y) = rstripChars x := by
  have he : (y.reverse.dropWhile pySpace).isEmpty := by
    rw [List.isEmpty_iff]
    have := congrArg List.reverse h
    simpa [rstripChars] using this
  unfold rstripChars
  rw [List.reverse_append, List.dropWhile_append, if_pos he]

theorem rstrip_prefix_self (s : List Char) : rstripChars s <+: s := by
  rw [show s = s.reverse.reverse from (List.reverse_reverse s).symm]
  unfold rstripChars
  rw [List.reverse_reverse, List.reverse_prefix]
  exact List.dropWhile_suffix pySpace

theorem not_prefixOf_of_head_ne (p c : Char) (ps s : List Char) (h : ¬ p = c) :
    ¬ (p :: ps).isPrefixOf (c :: s) = true := by
  intro hcon
  rw [ List.isPrefixOf_iff_prefix, List.cons_prefix_cons] at hcon
  exact h hcon.1

/-! ### Machinery: normalization is invariant under pre-wrapping -/

theorem pyReplace_suMark_wrap (s : List Char) :
    pyReplace suMark (suMark ++ '\n' :: (s ++ '\n' :: euMark)) =
      '\n' :: (pyReplace suMark s ++ '\n' :: euMark) := by
  have hns : NoSpan suMark ('\n' :: euMark) := noSpan_of_check _ _ (by decide)
  rw [pyReplace_eat _ _ (by decide)]
  rw [show ('\n' :: (s ++ '\n' :: euMark)) = '\n' :: (s ++ ('\n' :: euMark)) from rfl]
  rw [pyReplace_cons_neg _ _ _ (by
    rw [show suMark = '@' :: "startuml".toList from rfl]
    exact not_prefixOf_of_head_ne _ _ _ _ (by decide))]
  rw [pyReplace_append _ _ (by decide) hns s]
  rw [show pyReplace suMark ('\n' :: euMark) = '\n' :: euMark from by decide]

theorem pyReplace_euMark_tail (x : List Char) :
    pyReplace euMark ('\n' :: (x ++ '\n' :: euMark)) =
      '\n' :: (pyReplace euMark x ++ ['\n']) := by
  have hns : NoSpan euMark ('\n' :: euMark) := noSpan_of_check _ _ (by decide)
  rw [pyReplace_cons_neg _ _ _ (by
    rw [show euMark = '@' :: "enduml".toList from rfl]
    exact not_prefixOf_of_head_ne _ _ _ _ (by decide))]
  rw [pyReplace_append _ _ (by decide) hns x]
  rw [show pyReplace euMark ('\n' :: euMark) = ['\n'] from by decide]

theorem normalize_wrap (s : List Char) :
    normalizeSource (suMark ++ '\n' :: (s ++ '\n' :: euMark)) = normalizeSource s := by
  unfold normalizeSource
  rw [pyReplace_suMark_wrap s]
  rw [pyReplace_euMark_tail (pyReplace suMark s)]
  rw [stripChars_cons_ws '\n' _ (by decide)]
  rw [stripChars_append_ws '\n' _ (by decide)]

/-! ### Machinery: the packing loop -/

theorem alpha_mem : ∀ n, n < 64 → alpha n ∈ base64_chars := by decide

theorem shiftRight2_eq (b : Nat) : b >>> 2 = b / 4 := by
  rw [Nat.shiftRight_eq_div_pow]

theorem shiftRight4_eq (b : Nat) : b >>> 4 = b / 16 := by
  rw [Nat.shiftRight_eq_div_pow]

theorem shiftRight6_eq (b : Nat) : b >>> 6 = b / 64 := by
  rw [Nat.shiftRight_eq_div_pow]

theorem and3_eq (b : Nat) : b &&& 0x3 = b % 4 := by
  have h := Nat.and_pow_two_sub_one_eq_mod b 2
  norm_num at h
  exact h

theorem and15_eq (b : Nat) : b &&& 0xF = b % 16 := by
  have h := Nat.and_pow_two_sub_one_eq_mod b 4
  norm_num at h
  exact h

theorem and63_eq (b : Nat) : b &&& 0x3F = b % 64 := by
  have h := Nat.and_pow_two_sub_one_eq_mod b 6
  norm_num at h
  exact h

theorem or_shl4_eq_add : ∀ x, x < 4 → ∀ y, y < 16 → (x <<< 4) ||| y = x * 16 + y := by
  decide

theorem or_shl2_eq_add : ∀ x, x < 16 → ∀ y, y < 4 → (x <<< 2) ||| y = x * 4 + y := by
  decide

theorem sym1_eq (b0 : Nat) : b0 >>> 2 = packSymbol1 b0 := shiftRight2_eq b0

theorem sym2_eq (b0 b1 : Nat) (h1 : b1 < 256) :
    ((b0 &&& 0x3) <<< 4) ||| (b1 >>> 4) = packSymbol2 b0 b1 := by
  rw [and3_eq, shiftRight4_eq, or_shl4_eq_add (b0 % 4) (by omega) (b1 / 16) (by omega)]
  rfl

theorem sym3_eq (b1 b2 : Nat) (h2 : b2 < 256) :
    ((b1 &&& 0xF) <<< 2) ||| (b2 >>> 6) = packSymbol3 b1 b2 := by
  rw [and15_eq, shiftRight6_eq, or_shl2_eq_add (b1 % 16) (by omega) (b2 / 64) (by omega)]
  rfl

theorem sym4_eq (b2 : Nat) : b2 &&& 0x3F = packSymbol4 b2 := and63_eq b2

theorem pack64_eq_packSpec : ∀ l : List Nat, (∀ b ∈ l, b < 256) → pack64 l = packSpec l
  | [], _ => rfl
  | [b0], _ => by
    simp only [pack64, packSpec]
    rw [sym1_eq, sym2_eq b0 0 (by norm_num)]
  | [b0, b1], h => by
    have h1 : b1 < 256 := h b1 (by simp)
    simp only [pack64, packSpec]
    rw [sym1_eq, sym2_eq b0 b1 h1, sym3_eq b1 0 (by norm_num)]
  | b0 :: b1 :: b2 :: rest, h => by
    have h1 : b1 < 256 := h b1 (by simp)
    have h2 : b2 < 256 := h b2 (by simp)
    have ih := pack64_eq_packSpec rest (fun b hb => h b (by simp [hb]))
    simp only [pack64, packSpec]
    rw [sym1_eq, sym2_eq b0 b1 h1, sym3_eq b1 b2 h2, sym4_eq, ih]

theorem pack64_length : ∀ l : List Nat, (pack64 l).length =
    4 * (l.length / 3) +
      (if l.length % 3 = 0 then 0 else if l.length % 3 = 1 then 2 else 3)
  | [] => by simp [pack64]
  | [b0] => by simp [pack64]
  | [b0, b1] => by simp [pack64]
  | b0 :: b1 :: b2 :: rest => by
    have ih := pack64_length rest
    simp only [pack64, List.length_cons, ih]
    split_ifs <;> omega

theorem pack64_mem : ∀ l : List Nat, (∀ b ∈ l, b < 256) →
    ∀ c ∈ pack64 l, c ∈ base64_chars
  | [], _ => by simp [pack64]
  | [b0], h => by
    have h0 : b0 < 256 := h b0 (by simp)
    intro c hc
    simp only [pack64, List.mem_cons, List.not_mem_nil, or_false] at hc
    rcases hc with hc | hc <;> subst hc
    · exact alpha_mem _ (by rw [shiftRight2_eq]; omega)
    · exact alpha_mem _ (by
        rw [and3_eq, shiftRight4_eq, or_shl4_eq_add (b0 % 4) (by omega) (0 / 16) (by omega)]
        omega)
  | [b0, b1], h => by
    have h0 : b0 < 256 := h b0 (by simp)
    have h1 : b1 < 256 := h b1 (by simp)
    intro c hc
    simp only [pack64, List.mem_cons, List.not_mem_nil, or_false] at hc
    rcases hc with hc | hc | hc <;> subst hc
    · exact alpha_mem _ (by rw [shiftRight2_eq]; omega)
    · exact alpha_mem _ (by
        rw [and3_eq, shiftRight4_eq, or_shl4_eq_add (b0 % 4) (by omega) (b1 / 16) (by omega)]
        omega)
    · exact alpha_mem _ (by
        rw [and15_eq, shiftRight6_eq, or_shl2_eq_add (b1 % 16) (by omega) (0 / 64) (by omega)]
        omega)
  | b0 :: b1 :: b2 :: rest, h => by
    have h0 : b0 < 256 := h b0 (by simp)
    have h1 : b1 < 256 := h b1 (by simp)
    have h2 : b2 < 256 := h b2 (by simp)
    have ih := pack64_mem rest (fun b hb => h b (by simp [hb]))
    intro c hc
    simp only [pack64, List.mem_cons] at hc
    rcases hc with hc | hc | hc | hc | hc
    · exact hc ▸ alpha_mem _ (by rw [shiftRight2_eq]; omega)
    · exact hc ▸ alpha_mem _ (by
        rw [and3_eq, shiftRight4_eq, or_shl4_eq_add (b0 % 4) (by omega) (b1 / 16) (by omega)]
        omega)
    · exact hc ▸ alpha_mem _ (by
        rw [and15_eq, shiftRight6_eq, or_shl2_eq_add (b1 % 16) (by omega) (b2 / 64) (by omega)]
        omega)
    · exact hc ▸ alpha_mem _ (by rw [and63_eq]; omega)
    · exact ih c hc

theorem dropLast_four {α : Type} (x : List α) :
    x.dropLast.dropLast.dropLast.dropLast = x.take (x.length - 4) := by
  simp only [List.dropLast_eq_take, List.length_take, List.take_take]
  congr 1
  omega

theorem specSlice_eq (l : List Nat) : specSlice l = deflateSlice l := by
  unfold specSlice deflateSlice
  rw [dropLast_four (l.drop 2)]
  congr 1
  simp only [List.length_drop]
  omega

/-! ### Machinery: extraction from an already-wrapped text -/

theorem strFind_none_mono (pat x s : List Char) (hx : x <+: s)
    (h : strFind pat s = none) : strFind pat x = none := by
  rw [strFind_eq_none_iff] at h ⊢
  intro i hcon
  apply h i
  obtain ⟨t, ht⟩ := hx
  rw [← ht, List.drop_append_eq_append_drop]
  rw [ List.isPrefixOf_iff_prefix] at hcon ⊢
  exact hcon.trans (List.prefix_append _ _)

theorem wrapFind_fenceTag (s : List Char) (hNoFence : strFind fence s = none) :
    strFind fenceTag ((suMark ++ ['\n']) ++ (s ++ ('\n' :: euMark))) = none := by
  have hTagS : strFind fenceTag s = none :=
    strFind_sub_none fence fenceTag s hNoFence (by decide)
  have h1 := strFind_append_right fenceTag (suMark ++ ['\n']) (s ++ ('\n' :: euMark))
    (by decide) (by decide)
  rw [show strFind fenceTag (suMark ++ ['\n']) = none from by decide] at h1
  have h2 := strFind_append_noSpan fenceTag ('\n' :: euMark) (by decide)
    (noSpan_of_check _ _ (by decide)) s
  rw [hTagS, show strFind fenceTag ('\n' :: euMark) = none from by decide] at h2
  simp only [Option.map_none] at h2
  rw [h2] at h1
  simpa using h1

theorem wrapFind_fence (s : List Char) (hNoFence : strFind fence s = none) :
    strFind fence ((suMark ++ ['\n']) ++ (s ++ ('\n' :: euMark))) = none := by
  have h1 := strFind_append_right fence (suMark ++ ['\n']) (s ++ ('\n' :: euMark))
    (by decide) (by decide)
  rw [show strFind fence (suMark ++ ['\n']) = none from by decide] at h1
  have h2 := strFind_append_noSpan fence ('\n' :: euMark) (by decide)
    (noSpan_of_check _ _ (by decide)) s
  rw [hNoFence, show strFind fence ('\n' :: euMark) = none from by decide] at h2
  simp only [Option.map_none] at h2
  rw [h2] at h1
  simpa using h1

theorem wrapFind_suMark (s : List Char) :
    strFind suMark ((suMark ++ ['\n']) ++ (s ++ ('\n' :: euMark))) = some 0 := by
  apply strFind_pos
  rw [ List.isPrefixOf_iff_prefix, List.append_assoc]
  exact List.prefix_append _ _

theorem wrapFind_euMark (s : List Char) (hNoEu : strFind euMark s = none) :
    strFind euMark ((suMark ++ ['\n']) ++ (s ++ ('\n' :: euMark))) = some (s.length + 11) := by
  have h1 := strFind_append_right euMark (suMark ++ ['\n']) (s ++ ('\n' :: euMark))
    (by decide) (by decide)
  rw [show strFind euMark (suMark ++ ['\n']) = none from by decide] at h1
  have h2 := strFind_append_noSpan euMark ('\n' :: euMark) (by decide)
    (noSpan_of_check _ _ (by decide)) s
  rw [hNoEu, show strFind euMark ('\n' :: euMark) = some 1 from by decide] at h2
  simp only [Option.map_some] at h2
  rw [h2] at h1
  simp only [Option.map_some] at h1
  rw [show (suMark ++ ['\n']).length = 10 from by decide] at h1
  rw [h1]
  exact congrArg some (by show 1 + s.length + 10 = s.length + 11; omega)

theorem take_wrap (s : List Char) :
    ((suMark ++ ['\n']) ++ (s ++ ('\n' :: euMark))).take (s.length + 11) =
      (suMark ++ ['\n']) ++ (s ++ ['\n']) := by
  have hA : (suMark ++ ['\n']).length = 10 := by decide
  rw [List.take_append_eq_append_take, List.take_of_length_le (by omega)]
  congr 1
  rw [hA, show s.length + 11 - 10 = s.length + 1 from by omega]
  rw [List.take_append_eq_append_take, List.take_of_length_le (by omega)]
  congr 1
  rw [show s.length + 1 - s.length = 1 from by omega]
  rfl

theorem not_euSuffix_append (rs : List Char) (h : strFind euMark rs = none) :
    euMark.isSuffixOf ((suMark ++ ['\n']) ++ rs) = false := by
  cases heq : euMark.isSuffixOf ((suMark ++ ['\n']) ++ rs) with
  | false => rfl
  | true =>
    exfalso
    rw [List.isSuffixOf_iff_suffix] at heq
    have h2 : euMark.reverse <+: rs.reverse ++ (suMark ++ ['\n']).reverse := by
      rw [← List.reverse_append]
      exact List.reverse_prefix.mpr heq
    have h3 := noSpan_of_check (euMark.reverse) ((suMark ++ ['\n']).reverse) (by decide)
    have h4 : euMark.reverse.isPrefixOf rs.reverse := by
      apply h3 rs.reverse
      rw [ List.isPrefixOf_iff_prefix]
      exact h2
    have h5 : euMark <:+ rs := by
      rw [ List.isPrefixOf_iff_prefix] at h4
      exact List.reverse_prefix.mp h4
    obtain ⟨pre, hpre⟩ := h5
    apply (strFind_eq_none_iff euMark rs).mp h pre.length
    rw [← hpre, List.drop_left, List.isPrefixOf_iff_prefix]

theorem stripChars_wrap (s : List Char) :
    stripChars ((suMark ++ ['\n']) ++ (s ++ ['\n'])) =
      rstripChars ((suMark ++ ['\n']) ++ s) := by
  unfold stripChars
  have hl : lstripChars ((suMark ++ ['\n']) ++ (s ++ ['\n'])) =
      (suMark ++ ['\n']) ++ (s ++ ['\n']) := by
    rw [show (suMark ++ ['\n']) ++ (s ++ ['\n']) =
      '@' :: ("startuml\n".toList ++ (s ++ ['\n'])) from rfl]
    exact lstrip_cons_not _ _ (by decide)
  rw [hl, show (suMark ++ ['\n']) ++ (s ++ ['\n']) =
    ((suMark ++ ['\n']) ++ s) ++ ['\n'] from by simp [List.append_assoc]]
  exact rstrip_append_ws _ _ (by decide)

theorem postProcess_wrap (s : List Char) (hNoEu : strFind euMark s = none) :
    postProcessCode (stripChars ((suMark ++ ['\n']) ++ (s ++ ['\n']))) =
      rstripChars ((suMark ++ ['\n']) ++ s) ++ '\n' :: euMark := by
  rw [stripChars_wrap]
  by_cases hrs : rstripChars s = []
  · rw [rstrip_append_of_nil _ _ hrs,
      show rstripChars (suMark ++ ['\n']) = suMark from by decide]
    decide
  · rw [rstrip_append_of_ne _ _ hrs]
    have hpre : suMark.isPrefixOf ((suMark ++ ['\n']) ++ rstripChars s) = true := by
      rw [ List.isPrefixOf_iff_prefix, List.append_assoc]
      exact List.prefix_append _ _
    have hsuf : euMark.isSuffixOf ((suMark ++ ['\n']) ++ rstripChars s) = false := by
      apply not_euSuffix_append
      exact strFind_none_mono _ _ _ (rstrip_prefix_self s) hNoEu
    unfold postProcessCode
    rw [show prependMark ((suMark ++ ['\n']) ++ rstripChars s) =
      (suMark ++ ['\n']) ++ rstripChars s from by unfold prependMark; rw [if_pos hpre]]
    unfold appendMark
    rw [if_neg (by intro hc; rw [hsuf] at hc; exact Bool.noConfusion hc)]

theorem extractLoop_cons_none (text m : List Char) (k : Nat)
    (rest : List (List Char × Nat)) (h : strFind m text = none) :
    extractLoop text ((m, k) :: rest) = extractLoop text rest := by
  simp only [extractLoop, h]

theorem extractLoop_cons_some (text m : List Char) (k : Nat)
    (rest : List (List Char × Nat)) (i : Nat) (h : strFind m text = some i) (e : Nat)
    (hE : tryEndMarkers text (i + k) [fence, euMark] = some e) :
    extractLoop text ((m, k) :: rest) =
      some (postProcessCode (stripChars (pySlice text (i + k) e))) := by
  simp only [extractLoop, h, hE]

theorem extract_wrap (s : List Char) (hNoFence : strFind fence s = none)
    (hNoEu : strFind euMark s = none) :
    extract_plantuml_code ((suMark ++ ['\n']) ++ (s ++ ('\n' :: euMark))) =
      Except.ok (rstripChars ((suMark ++ ['\n']) ++ s) ++ '\n' :: euMark) := by
  have w1 := wrapFind_fenceTag s hNoFence
  have w2 := wrapFind_fence s hNoFence
  have w3 := wrapFind_suMark s
  have w4 := wrapFind_euMark s hNoEu
  have hE : tryEndMarkers ((suMark ++ ['\n']) ++ (s ++ ('\n' :: euMark))) (0 + 0)
      [fence, euMark] = some (s.length + 11) := by
    simp only [tryEndMarkers, strFindFrom, Nat.add_zero, List.drop_zero, w2, w4,
      Option.map_none, Option.map_some]
    rfl
  have hL : extractLoop ((suMark ++ ['\n']) ++ (s ++ ('\n' :: euMark)))
      [(fenceTag, fenceTag.length), (suMark, 0)] =
      some (rstripChars ((suMark ++ ['\n']) ++ s) ++ '\n' :: euMark) := by
    rw [extractLoop_cons_none _ _ _ _ w1]
    rw [extractLoop_cons_some _ _ _ _ _ w3 _ hE]
    rw [show pySlice ((suMark ++ ['\n']) ++ (s ++ ('\n' :: euMark))) (0 + 0) (s.length + 11) =
      (suMark ++ ['\n']) ++ (s ++ ['\n']) from by
        unfold pySlice
        rw [show (0 : Nat) + 0 = 0 from rfl, List.drop_zero, take_wrap]]
    rw [postProcess_wrap s hNoEu]
  unfold extract_plantuml_code
  rw [hL]

/-! ### Machinery: the tool pipelines -/

theorem exceptIsError_iff {ε α : Type} (x : Except ε α) :
    exceptIsError x = true ↔ ∃ e, x = Except.error e := by
  cases x <;> simp [exceptIsError]

theorem umlObj_cases (eff : Effects) (y f : List Char) :
    (∃ msg, get_uml_diagram_obj eff y f = umlErrorObj msg ∧
      umlPipeline eff y f = Except.error msg) ∨
    (∃ code uri, get_uml_diagram_obj eff y f = umlOkObj code uri ∧
      umlPipeline eff y f = Except.ok (code, uri)) := by
  unfold get_uml_diagram_obj
  cases hp : umlPipeline eff y f with
  | error e => exact Or.inl ⟨e, rfl, rfl⟩
  | ok pr =>
    obtain ⟨code, uri⟩ := pr
    exact Or.inr ⟨code, uri, rfl, rfl⟩

theorem umlPipeline_invoke_err (eff : Effects) (y f e : List Char)
    (h : eff.invoke y = Except.error e) : umlPipeline eff y f = Except.error e := by
  unfold umlPipeline
  rw [h]
  rfl

theorem umlPipeline_extract_err (eff : Effects) (y f t e : List Char)
    (hI : eff.invoke y = Except.ok t) (hx : extract_plantuml_code t = Except.error e) :
    umlPipeline eff y f = Except.error e := by
  unfold umlPipeline
  simp only [hI, hx, Bind.bind, Except.bind]

theorem umlPipeline_server_err (eff : Effects) (y f t code e : List Char)
    (hI : eff.invoke y = Except.ok t) (hx : extract_plantuml_code t = Except.ok code)
    (hs : get_diagram_from_server eff code f = Except.error e) :
    umlPipeline eff y f = Except.error e := by
  unfold umlPipeline
  simp only [hI, hx, hs, Bind.bind, Except.bind]

theorem umlPipeline_upload_err (eff : Effects) (y f t code e : List Char) (data : List Nat)
    (hI : eff.invoke y = Except.ok t) (hx : extract_plantuml_code t = Except.ok code)
    (hs : get_diagram_from_server eff code f = Except.ok data)
    (hu : upload_to_s3 eff (("diagrams/".toList) ++ eff.uuid ++ '.' :: f) = Except.error e) :
    umlPipeline eff y f = Except.error e := by
  unfold umlPipeline
  simp only [hI, hx, hs, hu, Bind.bind, Except.bind]

theorem umlPipeline_ok_of (eff : Effects) (y f t code : List Char) (data : List Nat)
    (uri : List Char)
    (hI : eff.invoke y = Except.ok t) (hx : extract_plantuml_code t = Except.ok code)
    (hs : get_diagram_from_server eff code f = Except.ok data)
    (hu : upload_to_s3 eff (("diagrams/".toList) ++ eff.uuid ++ '.' :: f) = Except.ok uri) :
    umlPipeline eff y f = Except.ok (code, uri) := by
  unfold umlPipeline
  simp only [hI, hx, hs, hu, Bind.bind, Except.bind, pure, Except.pure]

theorem upload_err_of_bucket (eff : Effects) (key e : List Char)
    (h : eff.bucket = Except.error e) :
    upload_to_s3 eff key = Except.error (("Error uploading to S3: ".toList) ++ e) := by
  unfold upload_to_s3
  rw [h]

theorem upload_err_of_put (eff : Effects) (key bname e : List Char)
    (hb : eff.bucket = Except.ok bname) (h : eff.putObject key = Except.error e) :
    upload_to_s3 eff key = Except.error (("Error uploading to S3: ".toList) ++ e) := by
  unfold upload_to_s3
  rw [hb, h]

theorem uml_obj_of_pipeline_err (eff : Effects) (y f msg : List Char)
    (h : umlPipeline eff y f = Except.error msg) :
    get_uml_diagram_obj eff y f = umlErrorObj msg := by
  unfold get_uml_diagram_obj
  rw [h]
  rfl

theorem uml_obj_error_of_fault (eff : Effects) (y f : List Char)
    (h : umlFault eff y f) :
    ∃ msg, get_uml_diagram_obj eff y f = umlErrorObj msg := by
  rcases h with h1 | ⟨t, ht, hx⟩ | ⟨t, code, ht, hc, hs⟩ | hb | hp
  · obtain ⟨e, he⟩ := (exceptIsError_iff _).mp h1
    exact ⟨e, uml_obj_of_pipeline_err _ _ _ _ (umlPipeline_invoke_err _ _ _ _ he)⟩
  · obtain ⟨e, he⟩ := (exceptIsError_iff _).mp hx
    exact ⟨e, uml_obj_of_pipeline_err _ _ _ _ (umlPipeline_extract_err _ _ _ _ _ ht he)⟩
  · obtain ⟨e, he⟩ := (exceptIsError_iff _).mp hs
    exact ⟨e, uml_obj_of_pipeline_err _ _ _ _ (umlPipeline_server_err _ _ _ _ _ _ ht hc he)⟩
  · obtain ⟨e, he⟩ := (exceptIsError_iff _).mp hb
    cases hI : eff.invoke y with
    | error e2 =>
      exact ⟨e2, uml_obj_of_pipeline_err _ _ _ _ (umlPipeline_invoke_err _ _ _ _ hI)⟩
    | ok t =>
      cases hX : extract_plantuml_code t with
      | error e2 =>
        exact ⟨e2, uml_obj_of_pipeline_err _ _ _ _ (umlPipeline_extract_err _ _ _ _ _ hI hX)⟩
      | ok code =>
        cases hS : get_diagram_from_server eff code f with
        | error e2 =>
          exact ⟨e2,
            uml_obj_of_pipeline_err _ _ _ _ (umlPipeline_server_err _ _ _ _ _ _ hI hX hS)⟩
        | ok data =>
          exact ⟨("Error uploading to S3: ".toList) ++ e,
            uml_obj_of_pipeline_err _ _ _ _ (umlPipeline_upload_err _ _ _ _ _ _ _ hI hX hS
              (upload_err_of_bucket _ _ _ he))⟩
  · cases hI : eff.invoke y with
    | error e2 =>
      exact ⟨e2, uml_obj_of_pipeline_err _ _ _ _ (umlPipeline_invoke_err _ _ _ _ hI)⟩
    | ok t =>
      cases hX : extract_plantuml_code t with
      | error e2 =>
        exact ⟨e2, uml_obj_of_pipeline_err _ _ _ _ (umlPipeline_extract_err _ _ _ _ _ hI hX)⟩
      | ok code =>
        cases hS : get_diagram_from_server eff code f with
        | error e2 =>
          exact ⟨e2,
            uml_obj_of_pipeline_err _ _ _ _ (umlPipeline_server_err _ _ _ _ _ _ hI hX hS)⟩
        | ok data =>
          cases hB : eff.bucket with
          | error e2 =>
            exact ⟨("Error uploading to S3: ".toList) ++ e2,
              uml_obj_of_pipeline_err _ _ _ _ (umlPipeline_upload_err _ _ _ _ _ _ _ hI hX hS
                (upload_err_of_bucket _ _ _ hB))⟩
          | ok bname =>
            obtain ⟨e, he⟩ := (exceptIsError_iff _).mp hp
            exact ⟨("Error uploading to S3: ".toList) ++ e,
              uml_obj_of_pipeline_err _ _ _ _ (umlPipeline_upload_err _ _ _ _ _ _ _ hI hX hS
                (upload_err_of_put _ _ _ _ hB he))⟩

/-! ### Machinery: the extraction loop vs. its specification rendering -/

theorem tryEnd_eq_firstEnd (text : List Char) (st : Nat) :
    tryEndMarkers text st [fence, euMark] = firstEndSpec text st := by
  cases hf : strFindFrom fence text st with
  | some e => simp only [tryEndMarkers, firstEndSpec, hf]
  | none =>
    cases he : strFindFrom euMark text st with
    | some e => simp only [tryEndMarkers, firstEndSpec, hf, he]
    | none => simp only [tryEndMarkers, firstEndSpec, hf, he]

theorem extractLoop_single (text m : List Char) (k : Nat) :
    extractLoop text [(m, k)] = tryStartSpec text m k := by
  cases h1 : strFind m text with
  | none => simp only [extractLoop, tryStartSpec, h1]
  | some i =>
    cases h2 : tryEndMarkers text (i + k) [fence, euMark] with
    | some e =>
      rw [extractLoop_cons_some _ _ _ _ _ h1 _ h2]
      unfold tryStartSpec
      simp only [h1, ← tryEnd_eq_firstEnd, h2]
    | none =>
      simp only [extractLoop, tryStartSpec, h1, ← tryEnd_eq_firstEnd, h2]

theorem extract_eq_fallback (text : List Char) :
    extractLoop text [(fenceTag, fenceTag.length), (suMark, 0)] = extractSpecFallback text := by
  unfold extractSpecFallback
  cases h1 : strFind fenceTag text with
  | none =>
    rw [extractLoop_cons_none _ _ _ _ h1]
    rw [show tryStartSpec text fenceTag fenceTag.length = none from by
      unfold tryStartSpec; rw [h1]]
    exact extractLoop_single _ _ _
  | some i =>
    cases h2 : tryEndMarkers text (i + fenceTag.length) [fence, euMark] with
    | some e =>
      rw [extractLoop_cons_some _ _ _ _ _ h1 _ h2]
      rw [show tryStartSpec text fenceTag fenceTag.length =
        some (postProcessCode (stripChars (pySlice text (i + fenceTag.length) e))) from by
          unfold tryStartSpec; simp only [h1, ← tryEnd_eq_firstEnd, h2]]
    | none =>
      have hc : extractLoop text ((fenceTag, fenceTag.length) :: [(suMark, 0)]) =
          extractLoop text [(suMark, 0)] := by
        simp only [extractLoop, h1, h2]
      rw [hc]
      rw [show tryStartSpec text fenceTag fenceTag.length = none from by
        unfold tryStartSpec; simp only [h1, ← tryEnd_eq_firstEnd, h2]]
      exact extractLoop_single _ _ _

theorem tryStart_none_iff (text m : List Char) (k : Nat) :
    tryStartSpec text m k = none ↔ startFailsSpec text m k = true := by
  unfold tryStartSpec startFailsSpec
  cases h1 : strFind m text with
  | none => simp
  | some i =>
    cases h2 : firstEndSpec text (i + k) with
    | none => simp [h2]
    | some e => simp [h2]

theorem fallback_none_iff (text : List Char) :
    extractSpecFallback text = none ↔ failCondAmended text = true := by
  unfold extractSpecFallback failCondAmended
  cases h1 : tryStartSpec text fenceTag fenceTag.length with
  | some r =>
    have h2 : startFailsSpec text fenceTag fenceTag.length = false := by
      cases hsf : startFailsSpec text fenceTag fenceTag.length with
      | false => rfl
      | true => exact absurd ((tryStart_none_iff _ _ _).mpr hsf) (by rw [h1]; simp)
    simp [h2]
  | none =>
    have h2 : startFailsSpec text fenceTag fenceTag.length = true :=
      (tryStart_none_iff _ _ _).mp h1
    simp only [h2, Bool.true_and]
    exact tryStart_none_iff _ _ _

theorem unit_obj_cases (invoke : List Char → List Char → Except (List Char) (List Char))
    (y q : List Char) :
    (∃ e, get_unit_test_code_obj invoke y q =
      Json.obj [(("error".toList), Json.str e), (("codeBody".toList), Json.null)]) ∨
    (∃ code, get_unit_test_code_obj invoke y q =
      Json.obj [(("codeBody".toList), Json.str code)]) := by
  unfold get_unit_test_code_obj
  cases h : invoke y q with
  | error e => exact Or.inl ⟨e, rfl⟩
  | ok c => exact Or.inr ⟨c, rfl⟩

theorem search_obj_cases
    (retrieve : List Char → List Char → Nat → Except (List Char) (List RetrievedItem))
    (query kbId : List Char) (maxResults : Nat) :
    (∃ e, search_knowledge_base_obj retrieve query kbId maxResults =
      Json.obj [(("error".toList), Json.str e), (("results".toList), Json.arr [])]) ∨
    (∃ items, search_knowledge_base_obj retrieve query kbId maxResults =
      Json.obj [(("query".toList), Json.str query),
                (("results".toList), Json.arr (items.map reshapeItem)),
                (("count".toList), Json.num (List.length items))]) := by
  unfold search_knowledge_base_obj
  cases h : retrieve query kbId maxResults with
  | error e => exact Or.inl ⟨e, rfl⟩
  | ok items => exact Or.inr ⟨items, rfl⟩

/-! ### The claims -/

/-- **C1.** For every input string, `encode_plantuml` returns exactly the
token described by the specification: strip the `"@startuml"`/`"@enduml"`
literals and trim, re-wrap, UTF-8 encode, deflate-compress (2-byte header
and 4-byte trailer stripped), and pack the raw bytes three at a time into
the 64-symbol alphabet with the stated bit fields and short-group emission
rule.  `compress` stands for `zlib.compress` and is assumed to produce
bytes. -/
theorem claim_C1_encode_refines_spec (compress : List Nat → List Nat) (s : List Char)
    (hbytes : ∀ b ∈ compress (utf8Bytes (wrapSource s)), b < 256) :
    encode_plantuml compress s = encodePlantumlSpec compress s := by
  unfold encode_plantuml encodePlantumlSpec
  simp only [specSlice_eq]
  apply pack64_eq_packSpec
  intro b hb
  exact hbytes b (List.mem_of_mem_drop (List.mem_of_mem_take hb))

theorem claim_C1_witness :
    encode_plantuml cfDemo ("A -> B: hello".toList) =
      encodePlantumlSpec cfDemo ("A -> B: hello".toList) :=
  claim_C1_encode_refines_spec cfDemo ("A -> B: hello".toList)
    (by intro b hb; simp [cfDemo] at hb; omega)

/-- **C2 (counterexample).** The claim says the extractor uses the first
start marker of the list present in the text.  On
`"@startuml x\n```plantuml y"` the fence opener is present but has no end
marker after it; the procedure described by the claim finds nothing, yet
the code succeeds (through the bare `"@startuml"`). -/
theorem claim_C2_counterexample :
    extract_plantuml_code cexC2Text = Except.ok ("@startuml x\n@enduml".toList) ∧
    extractSpecNoFallback cexC2Text = none := by
  constructor
  · rfl
  · rfl

/-- **C2 (amended).** `extract_plantuml_code` behaves exactly as the claim
describes it, *amended* in one point: when the selected start marker has no
end marker at or after its advanced position, the next start marker of the
list is tried (the bare `"@startuml"` after the fence opener) before the
extraction fails with the fixed message. -/
theorem claim_C2_extract_described (text : List Char) :
    extract_plantuml_code text =
      match extractSpecFallback text with
      | some code => Except.ok code
      | none => Except.error extractFailMsg := by
  unfold extract_plantuml_code
  rw [extract_eq_fallback]

/-- **C5 (counterexample).** The claim's failure condition ("the start
marker selected has no end marker at or after the advanced position") holds
on `"@startuml z\n```plantuml w"`, yet extraction succeeds there, because
the code falls back to the next start marker. -/
theorem claim_C5_counterexample :
    failCondSpec cexC5Text = true ∧
    extract_plantuml_code cexC5Text = Except.ok ("@startuml z\n@enduml".toList) := by
  constructor
  · rfl
  · rfl

/-- **C5 (amended).** `extract_plantuml_code` fails — always with the fixed
extraction-error message — if and only if *every* start marker of the list
fails: it is absent from the text, or no end marker occurs at or after its
advanced start position. -/
theorem claim_C5_failure_iff (text : List Char) :
    extract_plantuml_code text = Except.error extractFailMsg ↔
      failCondAmended text = true := by
  unfold extract_plantuml_code
  rw [extract_eq_fallback]
  cases hf : extractSpecFallback text with
  | some code =>
    constructor
    · intro h
      exact absurd h (by simp)
    · intro h
      exact absurd ((fallback_none_iff text).mpr h) (by rw [hf]; simp)
  | none =>
    constructor
    · intro _
      exact (fallback_none_iff text).mp hf
    · intro _
      rfl

/-- **C6 (counterexample).** On the already-canonical input
`"@startuml\n A\n@enduml"` (body `" A"`, which contains no marker or fence
literal), the extractor keeps the leading space of the body: the result is
not `"@startuml\n" ++ trim(" A") ++ "\n@enduml"` as the claim states. -/
theorem claim_C6_counterexample :
    cexC6Text = suMark ++ '\n' :: ((" A".toList) ++ '\n' :: euMark) ∧
    strFind suMark (" A".toList) = none ∧
    strFind euMark (" A".toList) = none ∧
    strFind fence (" A".toList) = none ∧
    extract_plantuml_code cexC6Text = Except.ok ("@startuml\n A\n@enduml".toList) ∧
    ("@startuml\n A\n@enduml".toList) ≠
      suMark ++ '\n' :: (stripChars (" A".toList) ++ '\n' :: euMark) := by
  refine ⟨rfl, rfl, rfl, rfl, rfl, ?_⟩
  decide

/-- **C6 (amended).** For a body `s` free of the marker and fence literals,
extracting the wrapped text `"@startuml\n" ++ s ++ "\n@enduml"` yields
`strip("@startuml\n" ++ s ++ "\n") ++ "\n@enduml"`: the payload is stripped
*as a whole*, so only the trailing whitespace of `s` is removed (its leading
whitespace is protected by the `"@startuml"` prefix), and an all-whitespace
`s` collapses to `"@startuml\n@enduml"`. -/
theorem claim_C6_extract_wrapped (s : List Char)
    (_hNoSu : strFind suMark s = none)
    (hNoEu : strFind euMark s = none)
    (hNoFence : strFind fence s = none) :
    extract_plantuml_code (suMark ++ '\n' :: (s ++ '\n' :: euMark)) =
      Except.ok (stripChars (suMark ++ '\n' :: (s ++ ['\n'])) ++ '\n' :: euMark) := by
  have hb1 : suMark ++ '\n' :: (s ++ '\n' :: euMark) =
      (suMark ++ ['\n']) ++ (s ++ ('\n' :: euMark)) := by simp
  have hb2 : suMark ++ '\n' :: (s ++ ['\n']) = (suMark ++ ['\n']) ++ (s ++ ['\n']) := by simp
  rw [hb1, hb2, stripChars_wrap, extract_wrap s hNoFence hNoEu]

theorem claim_C6_witness :
    extract_plantuml_code (suMark ++ '\n' :: ((" hello\nworld ".toList) ++ '\n' :: euMark)) =
      Except.ok (stripChars (suMark ++ '\n' :: ((" hello\nworld ".toList) ++ ['\n'])) ++
        '\n' :: euMark) :=
  claim_C6_extract_wrapped (" hello\nworld ".toList) (by decide) (by decide) (by decide)

/-- **C7.** The token length is a deterministic function of the raw deflate
byte count `n` (after the 2-byte header and 4-byte trailer are dropped):
`4 * (n / 3)` plus `0`, `2` or `3` according to `n mod 3 = 0`, `1` or `2`. -/
theorem claim_C7_token_length (compress : List Nat → List Nat) (s : List Char) :
    (encode_plantuml compress s).length =
      4 * ((deflateSlice (compress (utf8Bytes (wrapSource s)))).length / 3) +
        (if (deflateSlice (compress (utf8Bytes (wrapSource s)))).length % 3 = 0 then 0
         else if (deflateSlice (compress (utf8Bytes (wrapSource s)))).length % 3 = 1 then 2
         else 3) := by
  unfold encode_plantuml
  exact pack64_length _

/-- **C8.** Every character of a token produced by `encode_plantuml` is a
member of the 64-symbol alphabet `0-9A-Za-z-_` (given that the compressor
produces bytes, as `zlib.compress` does). -/
theorem claim_C8_token_alphabet (compress : List Nat → List Nat) (s : List Char)
    (hbytes : ∀ b ∈ compress (utf8Bytes (wrapSource s)), b < 256) :
    ∀ c ∈ encode_plantuml compress s, c ∈ base64_chars := by
  unfold encode_plantuml
  apply pack64_mem
  intro b hb
  exact hbytes b (List.mem_of_mem_drop (List.mem_of_mem_take hb))

theorem claim_C8_witness : '0' ∈ base64_chars :=
  claim_C8_token_alphabet cfDemo ("A -> B: hello".toList)
    (by intro b hb; simp [cfDemo] at hb; omega) '0' (by decide)

/-- **C10.** `encode_plantuml` is invariant under pre-wrapping: an input
already carrying the `"@startuml"`/`"@enduml"` markers encodes to the same
token as its bare body, because the normalization step deletes the marker
literals and trims whitespace before re-wrapping. -/
theorem claim_C10_encode_wrap_invariant (compress : List Nat → List Nat) (s : List Char) :
    encode_plantuml compress (suMark ++ '\n' :: (s ++ '\n' :: euMark)) =
      encode_plantuml compress s := by
  unfold encode_plantuml wrapSource
  rw [normalize_wrap]

/-- **C3.** `get_uml_diagram` never lets a fault escape its boundary: for
every exception raised by an internal step — model invocation, extraction,
rendering-server fetch (transport fault or non-200 status), or storage
upload (bucket resolution or `put_object`) — it returns the JSON
serialization of `{"error": <message>, "codeBody": null,
"diagramUri": null}` rather than raising. -/
theorem claim_C3_error_boundary (eff : Effects) (ymlBody outputFormat : List Char)
    (h : umlFault eff ymlBody outputFormat) :
    isUmlErrorOutput (get_uml_diagram eff ymlBody outputFormat) := by
  obtain ⟨msg, hmsg⟩ := uml_obj_error_of_fault eff ymlBody outputFormat h
  exact ⟨msg, by unfold get_uml_diagram; rw [hmsg]⟩

theorem claim_C3_witness :
    isUmlErrorOutput (get_uml_diagram effDemoFault ("openapi: 3.0.0".toList) ("png".toList)) :=
  claim_C3_error_boundary effDemoFault ("openapi: 3.0.0".toList) ("png".toList)
    (Or.inl (by decide))

/-- **C4 (counterexample).** When the rendering server answers HTTP 404
after a successful extraction, the error result's `codeBody` field is
`null` — the already-extracted diagram source is *not* preserved, contrary
to the claim. -/
theorem claim_C4_counterexample :
    extract_plantuml_code demoText = Except.ok demoCode ∧
    jsonField (get_uml_diagram_obj effDemo404 ("openapi: 3.0.0".toList) ("png".toList))
      ("codeBody".toList) = some Json.null ∧
    some Json.null ≠ some (Json.str demoCode) := by
  refine ⟨rfl, rfl, ?_⟩
  intro h
  exact Json.noConfusion (Option.some.inj h)

/-- **C4 (amended).** When the rendering server responds with a non-200
status after the diagram source was successfully extracted,
`get_uml_diagram` returns the serialization of
`{"error": "Error getting diagram from server: Failed to get diagram:
HTTP <status>", "codeBody": null, "diagramUri": null}` — the error message
is non-null but `codeBody` is nulled, not preserved. -/
theorem claim_C4_non200_result (eff : Effects) (ymlBody outputFormat t code : List Char)
    (st : Nat) (data : List Nat)
    (hI : eff.invoke ymlBody = Except.ok t)
    (hx : extract_plantuml_code t = Except.ok code)
    (hs : eff.httpGet (PLANTUML_SERVER ++ '/' :: outputFormat ++ '/' ::
      encode_plantuml eff.compress code) = Except.ok (st, data))
    (hne : ¬ st = 200) :
    get_uml_diagram eff ymlBody outputFormat = dumps (umlErrorObj (serverErrMsg st)) := by
  have hserver : get_diagram_from_server eff code outputFormat =
      Except.error (serverErrMsg st) := by
    unfold get_diagram_from_server
    simp only [hs]
    rw [if_neg hne]
    rfl
  unfold get_uml_diagram
  rw [uml_obj_of_pipeline_err _ _ _ _
    (umlPipeline_server_err _ _ _ _ _ _ hI hx hserver)]

theorem claim_C4_witness :
    get_uml_diagram effDemo404 ("openapi: 3.0.0".toList) ("png".toList) =
      dumps (umlErrorObj (serverErrMsg 404)) :=
  claim_C4_non200_result effDemo404 ("openapi: 3.0.0".toList) ("png".toList)
    demoText demoCode 404 [] rfl rfl rfl (by decide)

/-- **C9 (counterexample).** The success and the error shape of
`get_uml_diagram` do *not* carry the same field names: the success object
has keys `codeBody, diagramUri, summary`, the error object has keys
`error, codeBody, diagramUri` (`summary` is missing, `error` is extra). -/
theorem claim_C9_counterexample :
    jsonKeys (get_uml_diagram_obj effDemoOk ("openapi: 3.0.0".toList) ("png".toList)) =
      [("codeBody".toList), ("diagramUri".toList), ("summary".toList)] ∧
    jsonKeys (get_uml_diagram_obj effDemo404 ("openapi: 3.0.0".toList) ("png".toList)) =
      [("error".toList), ("codeBody".toList), ("diagramUri".toList)] ∧
    jsonKeys (get_uml_diagram_obj effDemoOk ("openapi: 3.0.0".toList) ("png".toList)) ≠
      jsonKeys (get_uml_diagram_obj effDemo404 ("openapi: 3.0.0".toList) ("png".toList)) := by
  refine ⟨rfl, rfl, ?_⟩
  decide

/-- **C9 (amended).** Every tool entry point returns the `json.dumps`
serialization of a JSON object, and an `"error"` key is present exactly in
the error-shaped results, so callers can branch on its presence; the field
name sets of the two shapes, however, are not identical (`get_uml_diagram`'s
success shape has `summary` which its error shape lacks;
`search_knowledge_base`'s error shape lacks `query` and `count`). -/
theorem claim_C9_shapes :
    (∀ (eff : Effects) (y f : List Char),
      get_uml_diagram eff y f = dumps (get_uml_diagram_obj eff y f) ∧
      ((jsonKeys (get_uml_diagram_obj eff y f) =
          [("error".toList), ("codeBody".toList), ("diagramUri".toList)] ∧
        ("error".toList) ∈ jsonKeys (get_uml_diagram_obj eff y f)) ∨
       (jsonKeys (get_uml_diagram_obj eff y f) =
          [("codeBody".toList), ("diagramUri".toList), ("summary".toList)] ∧
        ("error".toList) ∉ jsonKeys (get_uml_diagram_obj eff y f)))) ∧
    (∀ (invoke : List Char → List Char → Except (List Char) (List Char)) (y q : List Char),
      get_unit_test_code invoke y q = dumps (get_unit_test_code_obj invoke y q) ∧
      ((jsonKeys (get_unit_test_code_obj invoke y q) =
          [("error".toList), ("codeBody".toList)] ∧
        ("error".toList) ∈ jsonKeys (get_unit_test_code_obj invoke y q)) ∨
       (jsonKeys (get_unit_test_code_obj invoke y q) = [("codeBody".toList)] ∧
        ("error".toList) ∉ jsonKeys (get_unit_test_code_obj invoke y q)))) ∧
    (∀ (retrieve : List Char → List Char → Nat → Except (List Char) (List RetrievedItem))
        (query kbId : List Char) (maxResults : Nat),
      search_knowledge_base retrieve query kbId maxResults =
        dumps (search_knowledge_base_obj retrieve query kbId maxResults) ∧
      ((jsonKeys (search_knowledge_base_obj retrieve query kbId maxResults) =
          [("error".toList), ("results".toList)] ∧
        ("error".toList) ∈ jsonKeys (search_knowledge_base_obj retrieve query kbId maxResults)) ∨
       (jsonKeys (search_knowledge_base_obj retrieve query kbId maxResults) =
          [("query".toList), ("results".toList), ("count".toList)] ∧
        ("error".toList) ∉
          jsonKeys (search_knowledge_base_obj retrieve query kbId maxResults)))) := by
  refine ⟨fun eff y f => ⟨rfl, ?_⟩, fun invoke y q => ⟨rfl, ?_⟩,
    fun retrieve query kbId maxResults => ⟨rfl, ?_⟩⟩
  · rcases umlObj_cases eff y f with ⟨msg, hm, _⟩ | ⟨code, uri, hm, _⟩
    · rw [hm]
      refine Or.inl ⟨rfl, ?_⟩
      rw [show jsonKeys (umlErrorObj msg) =
        [("error".toList), ("codeBody".toList), ("diagramUri".toList)] from rfl]
      decide
    · rw [hm]
      refine Or.inr ⟨rfl, ?_⟩
      rw [show jsonKeys (umlOkObj code uri) =
        [("codeBody".toList), ("diagramUri".toList), ("summary".toList)] from rfl]
      decide
  · rcases unit_obj_cases invoke y q with ⟨e, hm⟩ | ⟨code, hm⟩
    · rw [hm]
      refine Or.inl ⟨rfl, ?_⟩
      rw [show jsonKeys (Json.obj [(("error".toList), Json.str e),
        (("codeBody".toList), Json.null)]) =
        [("error".toList), ("codeBody".toList)] from rfl]
      decide
    · rw [hm]
      refine Or.inr ⟨rfl, ?_⟩
      rw [show jsonKeys (Json.obj [(("codeBody".toList), Json.str code)]) =
        [("codeBody".toList)] from rfl]
      decide
  · rcases search_obj_cases retrieve query kbId maxResults with ⟨e, hm⟩ | ⟨items, hm⟩
    · rw [hm]
      refine Or.inl ⟨rfl, ?_⟩
      rw [show jsonKeys (Json.obj [(("error".toList), Json.str e),
        (("results".toList), Json.arr [])]) =
        [("error".toList), ("results".toList)] from rfl]
      decide
    · rw [hm]
      refine Or.inr ⟨rfl, ?_⟩
      rw [show jsonKeys (Json.obj [(("query".toList), Json.str query),
        (("results".toList), Json.arr (items.map reshapeItem)),
        (("count".toList), Json.num (List.length items))]) =
        [("query".toList), ("results".toList), ("count".toList)] from rfl]
      decide
